import Mathlib

/-
Verification of the core of the swagger-to-django generator (generator.py)
against its natural-language specification.

The development shallowly embeds the relevant parts of generator.py:
 - the path canonicalisers `path_to_class_name` and `path_to_operation`
   (generator.py lines 84-131) as functions on `String`;
 - the reference resolver `Generator.resolve_schema_references`
   (lines 189-207) twice: once over an explicit heap of dictionary
   objects, which captures the in-place mutation and the aliasing
   introduced by `dict.update` (needed for the frame-effect claims),
   and once as a pure function on JSON trees, used where the
   descriptor builder embeds a resolved fragment as a value;
 - the per-operation descriptor construction of
   `Generator._make_class_definitions` (lines 209-318): the parameter
   classifier, the response selector and the security flag.

Python dictionaries are modelled as insertion-ordered association
lists with unique keys; `dict.update`, `dict.pop`, item assignment and
`in` follow the Python semantics.  Unbounded recursion (the resolver
has no cycle detection) is modelled with explicit fuel: `none` means
the call did not complete normally (exception or out of fuel).
-/

/-! ## JSON-like values

`Tree` is a materialised JSON value (used for parameter/response
details and for snapshots of heap structures).  `JVal` is a value
stored in a heap dictionary: nested dictionaries are represented by
addresses (`ptr`), which is what makes the aliasing of
`dict.update` expressible. -/

inductive PyTree where
  | str (s : String)
  | num (n : Int)
  | boolV (b : Bool)
  | nullV
  | arr (elems : List PyTree)
  | obj (entries : List (String × PyTree))

inductive JVal where
  | str (s : String)
  | num (n : Int)
  | boolV (b : Bool)
  | nullV
  | arr (elems : List JVal)
  | ptr (a : Nat)

mutual

def JVal.beq : JVal → JVal → Bool
  | .str a, .str b => a == b
  | .num a, .num b => a == b
  | .boolV a, .boolV b => a == b
  | .nullV, .nullV => true
  | .arr a, .arr b => JVal.beqList a b
  | .ptr a, .ptr b => a == b
  | _, _ => false

def JVal.beqList : List JVal → List JVal → Bool
  | [], [] => true
  | a :: as, b :: bs => JVal.beq a b && JVal.beqList as bs
  | _, _ => false

end

mutual

def PyTree.beq : PyTree → PyTree → Bool
  | .str a, .str b => a == b
  | .num a, .num b => a == b
  | .boolV a, .boolV b => a == b
  | .nullV, .nullV => true
  | .arr a, .arr b => PyTree.beqList a b
  | .obj a, .obj b => PyTree.beqObj a b
  | _, _ => false

def PyTree.beqList : List PyTree → List PyTree → Bool
  | [], [] => true
  | a :: as, b :: bs => PyTree.beq a b && PyTree.beqList as bs
  | _, _ => false

def PyTree.beqObj : List (String × PyTree) → List (String × PyTree) → Bool
  | [], [] => true
  | a :: as, b :: bs => a.1 == b.1 && PyTree.beq a.2 b.2 && PyTree.beqObj as bs
  | _, _ => false

end

/-! ## Python dict primitives (heap level) -/

/-- A heap dictionary: the contents of one Python `dict` object. -/
abbrev HDict := List (String × JVal)

/-- The heap: every address holds a dictionary (unused addresses hold `[]`). -/
abbrev Heap := Nat → HDict

/-- Membership test `k in d` on a dict. -/
def hdHasKey (d : HDict) (k : String) : Bool := d.any (fun e => e.1 == k)

/-- Item read `d[k]`, `none` models a `KeyError`. -/
def hdGet (d : HDict) (k : String) : Option JVal :=
  (d.find? (fun e => e.1 == k)).map (fun e => e.2)

/-- Effect of `d.pop(k)` on the entries of `d`. -/
def hdPop (d : HDict) (k : String) : HDict := d.filter (fun e => e.1 != k)

/-- Item assignment `d[k] = v`: replaces in place, else appends. -/
def hdSet (d : HDict) (k : String) (v : JVal) : HDict :=
  if hdHasKey d k then d.map (fun e => if e.1 == k then (k, v) else e)
  else d ++ [(k, v)]

/-- Effect of `d.update(e)` on the entries of `d` (shallow: values are
shared, which for `ptr` values is exactly Python's object sharing). -/
def hdUpdate (d e : HDict) : HDict := e.foldl (fun acc kv => hdSet acc kv.1 kv.2) d

/-- Functional heap write. -/
def heapSet (h : Heap) (a : Nat) (d : HDict) : Heap :=
  fun x => if x = a then d else h x

/-! ## Path canonicalisers (generator.py lines 84-131) -/

/-- The class name used when the path is the root (generator.py line 18). -/
def ROOT_CLASS_NAME : String := "Root"

/-- The operation base used when the path is the root (generator.py line 19). -/
def ROOT_OPERATION : String := "root"

def braceOpen : Char := Char.ofNat 123

def braceClose : Char := Char.ofNat 125

/-- Python `str.split(sep)` for a one-character separator, on character
lists: splits at every occurrence and keeps empty pieces. -/
def splitOnCh (sep : Char) : List Char → List (List Char)
  | [] => [[]]
  | c :: rest =>
    let r := splitOnCh sep rest
    if c = sep then [] :: r
    else
      match r with
      | [] => [[c]]
      | h :: t => (c :: h) :: t

/-- Python `sep.join(parts)` on character lists. -/
def joinWith (sep : List Char) : List (List Char) → List Char
  | [] => []
  | [x] => x
  | x :: rest => x ++ sep ++ joinWith sep rest

/-- The shared `character_map` of `path_to_class_name` and
`path_to_operation`: delete both braces, map underscore to slash
(applied by `str.translate`). -/
def sanitiseList : List Char → List Char
  | [] => []
  | c :: rest =>
    if c = braceOpen then sanitiseList rest
    else if c = braceClose then sanitiseList rest
    else if c = '_' then '/' :: sanitiseList rest
    else c :: sanitiseList rest

/-- Python `p[0].upper() + p[1:]` on a non-empty word (ASCII upper). -/
def capFirstList : List Char → List Char
  | [] => []
  | c :: cs => c.toUpper :: cs

/-- Embedding of `path_to_class_name` (generator.py lines 84-104). -/
def path_to_class_name (path : String) : String :=
  let sanitised := sanitiseList path.toList
  let class_name :=
    String.mk (List.flatten (((splitOnCh '/' sanitised).filter (fun p => !p.isEmpty)).map capFirstList))
  if class_name.isEmpty then ROOT_CLASS_NAME else class_name

/-- Embedding of `path_to_operation` (generator.py lines 107-131).
Note line 129 joins all segments of the sanitised path, without
filtering out empty ones. -/
def path_to_operation (path verb : String) : String :=
  let operation :=
    if path = "/" then ROOT_OPERATION
    else String.mk (joinWith ['_'] (splitOnCh '/' (sanitiseList path.toList)))
  verb ++ "_" ++ operation

/-! ## The reference resolver at heap level (generator.py lines 189-207) -/

/-- Last two components of the reference locator, Python
`section, name = schema_reference.split("/")[-2:]`; `none` models the
unpacking `ValueError` when there are fewer than two components. -/
def refSectionAndName (r : String) : Option (String × String) :=
  match ((splitOnCh '/' r.toList).map String.mk).reverse with
  | n :: s :: _ => some (s, n)
  | _ => none

/-- The two-level lookup `self.parser.specification[section][name]`,
modelled as a partial map from (section, name) to the heap address of
the stored definition dict; `none` models the `KeyError`. -/
abbrev DefTable := String → String → Option Nat

/-- The loop of lines 205-207, `for value in definition.values():
if isinstance(value, dict): self.resolve_schema_references(value)`,
parameterised by the recursive call made on each dict-valued entry. -/
def resolveValuesF (f : Nat → Heap → Option Heap) : HDict → Heap → Option Heap
  | [], heap => some heap
  | (_, JVal.ptr c) :: rest, heap =>
    match f c heap with
    | some h1 => resolveValuesF f rest h1
    | none => none
  | _ :: rest, heap => resolveValuesF f rest heap

/-- Embedding of `Generator.resolve_schema_references` (generator.py
lines 189-207) over the heap.  `addr` is the address of the
`definition` dict; the result is the heap after the in-place
modifications.  `none` models an uncaught exception or exhausted fuel
(the source has no cycle detection and recurses without bound on a
reference cycle).  `definition.update(referenced_definition)` copies
the entries of the referenced dict, sharing its values — for
dict-valued entries the shared `ptr` addresses record exactly
Python's object sharing. -/
def resolveRefs (table : DefTable) : Nat → Nat → Heap → Option Heap
  | 0, _, _ => none
  | fuel + 1, addr, heap =>
    match hdGet (heap addr) "$ref" with
    | some (JVal.str r) =>
      match refSectionAndName r with
      | some (sec, defName) =>
        match table sec defName with
        | some b =>
          let d := hdUpdate (hdPop (heap addr) "$ref") (heap b)
          resolveValuesF (fun c h => resolveRefs table fuel c h) d (heapSet heap addr d)
        | none => none
      | none => none
    | some _ => none
    | none => resolveValuesF (fun c h => resolveRefs table fuel c h) (heap addr) heap

/-! ## Snapshots: materialising heap structures as trees -/

/-- Mapping a fallible function over a list, failing when any element
fails. -/
def listMapOpt (f : α → Option β) : List α → Option (List β)
  | [] => some []
  | x :: rest =>
    match f x, listMapOpt f rest with
    | some y, some ys => some (y :: ys)
    | _, _ => none

/-- Materialise a heap value as a tree, following pointers; this is
the structural content of a Python value, so two values are
structurally equal exactly when their snapshots are equal trees. -/
def snapVal (h : Heap) : Nat → JVal → Option PyTree
  | 0, _ => none
  | fuel + 1, v =>
    match v with
    | .str s => some (.str s)
    | .num n => some (.num n)
    | .boolV b => some (.boolV b)
    | .nullV => some .nullV
    | .arr l => (listMapOpt (fun x => snapVal h fuel x) l).map PyTree.arr
    | .ptr a =>
      (listMapOpt (fun kv => (snapVal h fuel kv.2).map (fun t => (kv.1, t))) (h a)).map
        PyTree.obj

/-- Bounded check that every dict reachable from `addr` through
dict-valued entries carries no reference key. -/
def noRefsUpTo : Nat → Heap → Nat → Bool
  | 0, _, _ => false
  | fuel + 1, h, a =>
    !hdHasKey (h a) "$ref" &&
    (h a).all (fun kv =>
      match kv.2 with
      | JVal.ptr c => noRefsUpTo fuel h c
      | _ => true)

/-- Reachability from one dict object to another through dict-valued
entries — the paths along which the resolver's recursion travels. -/
inductive Reach (h : Heap) : Nat → Nat → Prop where
  | refl (a : Nat) : Reach h a a
  | head (k : String) (a c n : Nat) (mem : (k, JVal.ptr c) ∈ h a) (tail : Reach h c n) : Reach h a n

/-- The invariant on heaps: every definition stored in the table is a
dict without a top-level reference key. -/
def TableClean (table : DefTable) (h : Heap) : Prop :=
  ∀ s n b, table s n = some b → hdHasKey (h b) "$ref" = false

/-! ## Tree-level model of the descriptor builder

`Generator._make_class_definitions` (generator.py lines 209-318) reads
parameter and response details out of the parsed specification and
assembles one descriptor (`payload`) per path and verb.  Here the
values involved are modelled as materialised trees (`PyTree`), with
dicts as `TDict` association lists. -/

/-- A tree-level Python dict. -/
abbrev TDict := List (String × PyTree)

/-- Membership test `k in d` on a tree-level dict. -/
def tdHasKey (d : TDict) (k : String) : Bool := d.any (fun e => e.1 == k)

/-- Item read `d[k]` (also `d.get(k)` when combined with a default);
`none` models the `KeyError`. -/
def tdGet (d : TDict) (k : String) : Option PyTree :=
  (d.find? (fun e => e.1 == k)).map (fun e => e.2)

/-- Effect of `d.pop(k)` on the entries of `d`. -/
def tdPop (d : TDict) (k : String) : TDict := d.filter (fun e => e.1 != k)

/-- Item assignment `d[k] = v`: replaces in place, else appends. -/
def tdSet (d : TDict) (k : String) (v : PyTree) : TDict :=
  if tdHasKey d k then d.map (fun e => if e.1 == k then (k, v) else e)
  else d ++ [(k, v)]

/-- Effect of `d.update(e)` on the entries of `d`. -/
def tdUpdate (d e : TDict) : TDict := e.foldl (fun acc kv => tdSet acc kv.1 kv.2) d

/-- The definitions table with materialised bodies, for the tree-level
reading of the resolver. -/
abbrev TreeTable := String → String → Option TDict

/-- The loop of generator.py lines 205-207 at tree level,
parameterised by the recursive call made on each dict-valued entry. -/
def resolveTValues (f : TDict → Option TDict) : TDict → Option TDict
  | [] => some []
  | (k, PyTree.obj sub) :: rest =>
    match f sub, resolveTValues f rest with
    | some sub1, some rest1 => some ((k, PyTree.obj sub1) :: rest1)
    | _, _ => none
  | kv :: rest =>
    match resolveTValues f rest with
    | some rest1 => some (kv :: rest1)
    | none => none

/-- The reference resolver of generator.py lines 189-207 read at tree
level: the same substitution and recursion, with the in-place update
of the fragment expressed as returning the transformed dict.  This is
the value-level effect used where `_make_class_definitions` embeds a
resolved fragment into the descriptor (lines 261 and 298). -/
def resolveT (table : TreeTable) : Nat → TDict → Option TDict
  | 0, _ => none
  | fuel + 1, d =>
    let step : Option TDict :=
      match tdGet d "$ref" with
      | some (PyTree.str r) =>
        match refSectionAndName r with
        | some (sec, defName) =>
          match table sec defName with
          | some body => some (tdUpdate (tdPop d "$ref") body)
          | none => none
        | none => none
      | some _ => none
      | none => some d
    match step with
    | none => none
    | some d1 => resolveTValues (fun x => resolveT table fuel x) d1

/-! ## Python value helpers used by the descriptor builder -/

/-- Python truthiness of a JSON-like value. -/
def pyTruthy : PyTree → Bool
  | .str s => !s.isEmpty
  | .num n => n != 0
  | .boolV b => b
  | .nullV => false
  | .arr l => !l.isEmpty
  | .obj l => !l.isEmpty

def isSpaceCh (c : Char) : Bool := c == ' ' || c == '\t' || c == '\n' || c == '\r'

def isDigitCh (c : Char) : Bool := 48 ≤ c.toNat && c.toNat ≤ 57

def digitVal (c : Char) : Nat := c.toNat - 48

/-- Digits of an integer literal after the first one: Python `int()`
accepts single underscores strictly between digits. -/
def pyDigitsGo (acc : Nat) : List Char → Option Nat
  | [] => some acc
  | '_' :: c :: rest =>
    if isDigitCh c then pyDigitsGo (acc * 10 + digitVal c) rest else none
  | c :: rest =>
    if isDigitCh c then pyDigitsGo (acc * 10 + digitVal c) rest else none

/-- A non-empty run of digits (with single underscores between digits). -/
def pyParseDigits : List Char → Option Nat
  | [] => none
  | c :: rest => if isDigitCh c then pyDigitsGo (digitVal c) rest else none

/-- Python `int(s)` on a string: optional surrounding whitespace,
optional sign, then digits; `none` models the `ValueError`. -/
def pyIntStr (s : String) : Option Int :=
  let l := ((s.toList.dropWhile isSpaceCh).reverse.dropWhile isSpaceCh).reverse
  match l with
  | '+' :: rest => (pyParseDigits rest).map (fun n => (n : Int))
  | '-' :: rest => (pyParseDigits rest).map (fun n => -(n : Int))
  | _ => (pyParseDigits l).map (fun n => (n : Int))

def listStartsWith : List Char → List Char → Bool
  | _, [] => true
  | [], _ :: _ => false
  | h :: hs, n :: ns => h == n && listStartsWith hs ns

/-- Substring test, for Python `in` on strings. -/
def strContainsSub (needle : List Char) : List Char → Bool
  | [] => listStartsWith [] needle
  | c :: rest => listStartsWith (c :: rest) needle || strContainsSub needle rest

/-- Python `k in t`: key membership on dicts, element membership on
lists, substring on strings; `none` models the `TypeError` on other
values. -/
def pyContains (t : PyTree) (k : String) : Option Bool :=
  match t with
  | .obj entries => some (tdHasKey entries k)
  | .arr elems => some (elems.any (fun v => PyTree.beq v (.str k)))
  | .str s => some (strContainsSub k.toList s.toList)
  | _ => none

/-- Python `t[k]` for a string key: item lookup on dicts; `none`
models the `TypeError`/`KeyError` on other values or missing keys. -/
def pyGetItem (t : PyTree) (k : String) : Option PyTree :=
  match t with
  | .obj entries => tdGet entries k
  | _ => none

/-- Python `r.split("/")[-1]`, the crude reference-name lookup of
generator.py lines 249 and 287. -/
def lastComp (r : String) : String :=
  ((splitOnCh '/' r.toList).map String.mk).getLastD ""

/-! ## A model of `json.dumps(x, indent=4, sort_keys=True)`

Only used to build the textual `json.loads("""...""")` value embedded
for inline schemas (generator.py lines 262-265 and 299-302); no claim
depends on the exact rendering. -/

def jsonEscapeChar (c : Char) : List Char :=
  if c = '"' then ['\\', '"']
  else if c = '\\' then ['\\', '\\']
  else if c = '\n' then ['\\', 'n']
  else if c = '\t' then ['\\', 't']
  else if c = '\r' then ['\\', 'r']
  else [c]

def jsonQuote (s : String) : String :=
  "\"" ++ String.mk (s.toList.map jsonEscapeChar).flatten ++ "\""

def indentSp (level : Nat) : String := String.mk (List.replicate (4 * level) ' ')

def insertByKey (x : String × PyTree) : List (String × PyTree) → List (String × PyTree)
  | [] => [x]
  | y :: rest => if x.1 ≤ y.1 then x :: y :: rest else y :: insertByKey x rest

def sortByKey (l : List (String × PyTree)) : List (String × PyTree) :=
  l.foldr insertByKey []

def joinStrings (sep : String) (l : List String) : String :=
  String.mk (joinWith sep.toList (l.map String.toList))

def pyJsonDumpsVal : Nat → PyTree → Nat → String
  | 0, _, _ => ""
  | fuel + 1, t, ind =>
    match t with
    | .str s => jsonQuote s
    | .num n => toString n
    | .boolV b => if b then "true" else "false"
    | .nullV => "null"
    | .arr [] => "[]"
    | .arr elems =>
      "[\n" ++
        joinStrings ",\n"
          (elems.map (fun v => indentSp (ind + 1) ++ pyJsonDumpsVal fuel v (ind + 1))) ++
        "\n" ++ indentSp ind ++ "]"
    | .obj [] => "\x7b\x7d"
    | .obj entries =>
      "\x7b\n" ++
        joinStrings ",\n"
          ((sortByKey entries).map (fun kv =>
            indentSp (ind + 1) ++ jsonQuote kv.1 ++ ": " ++
              pyJsonDumpsVal fuel kv.2 (ind + 1))) ++
        "\n" ++ indentSp ind ++ "\x7d"

mutual

/-- An executable size bound on a tree, used only to supply enough
fuel to the rendering of inline schemas. -/
def PyTree.sz : PyTree → Nat
  | .obj e => 1 + PyTree.szObj e
  | .arr l => 1 + PyTree.szList l
  | _ => 1

def PyTree.szObj : List (String × PyTree) → Nat
  | [] => 0
  | kv :: rest => PyTree.sz kv.2 + PyTree.szObj rest + 1

def PyTree.szList : List PyTree → Nat
  | [] => 0
  | v :: rest => PyTree.sz v + PyTree.szList rest + 1

end

def pyJsonDumps (t : PyTree) : String := pyJsonDumpsVal (PyTree.sz t) t 0

/-! ## The per-operation descriptor -/

/-- The `payload` dict of generator.py lines 220-227 (plus the `body`
key assigned at line 242 when a body parameter appears). -/
structure Payload where
  operation : String
  required_args : List TDict
  optional_args : List TDict
  form_data : List TDict
  body : Option TDict
  response_schema : String
  secure : Bool

/-- Initial payload of generator.py lines 220-227. -/
def init_payload (operation : String) : Payload :=
  { operation := operation
    required_args := []
    optional_args := []
    form_data := []
    body := none
    response_schema := "schemas.__UNSPECIFIED__"
    secure := false }

/-- A report of an unsupported parameter location: the message of
generator.py lines 269-272 interpolates exactly the location, the
operation identifier and the parameter name, modelled structurally. -/
abbrev UnsupportedReport := PyTree × String × String

/-- Classification of one parameter, generator.py lines 230-272: the
body of the loop over `io["parameters"].items()`. -/
def classify_param (table : TreeTable) (fuel : Nat) (payload : Payload)
    (log : List UnsupportedReport) (pname : String) (detail : TDict) :
    Option (Payload × List UnsupportedReport) :=
  match tdGet detail "in" with
  | none => none
  | some location =>
    if PyTree.beq location (PyTree.str "path") then
      match tdGet detail "required" with
      | none => none
      | some req =>
        if pyTruthy req then
          some ({ payload with required_args := payload.required_args ++ [detail] }, log)
        else
          some ({ payload with optional_args := payload.optional_args ++ [detail] }, log)
    else if PyTree.beq location (PyTree.str "query") then
      match tdGet detail "required" with
      | none => none
      | some req =>
        if pyTruthy req then
          some ({ payload with required_args := payload.required_args ++ [detail] }, log)
        else
          some ({ payload with optional_args := payload.optional_args ++ [detail] }, log)
    else if PyTree.beq location (PyTree.str "body") then
      match tdGet detail "schema" with
      | none => none
      | some schemaVal =>
        match schemaVal with
        | PyTree.obj schemaEntries =>
          match tdGet schemaEntries "$ref" with
          | some refv =>
            if pyTruthy refv then
              match refv with
              | PyTree.str r =>
                some ({ payload with
                  body := some (tdSet detail "schema"
                    (PyTree.str ("schemas." ++ lastComp r))) }, log)
              | _ => none
            else
              match resolveT table fuel schemaEntries with
              | some resolved =>
                some ({ payload with
                  body := some (tdSet detail "schema"
                    (PyTree.str ("json.loads(\"\"\"" ++
                      pyJsonDumps (PyTree.obj resolved) ++ "\"\"\")"))) }, log)
              | none => none
          | none =>
            match resolveT table fuel schemaEntries with
            | some resolved =>
              some ({ payload with
                body := some (tdSet detail "schema"
                  (PyTree.str ("json.loads(\"\"\"" ++
                    pyJsonDumps (PyTree.obj resolved) ++ "\"\"\")"))) }, log)
            | none => none
        | _ => none
    else if PyTree.beq location (PyTree.str "formData") then
      some ({ payload with form_data := payload.form_data ++ [detail] }, log)
    else
      some (payload, log ++ [(location, payload.operation, pname)])

/-- The whole parameter loop of generator.py lines 230-272. -/
def classify_params (table : TreeTable) (fuel : Nat) :
    List (String × TDict) → Payload → List UnsupportedReport →
    Option (Payload × List UnsupportedReport)
  | [], payload, log => some (payload, log)
  | (pname, detail) :: rest, payload, log =>
    match classify_param table fuel payload log pname detail with
    | some (p1, l1) => classify_params table fuel rest p1 l1
    | none => none

/-- One step of the response loop, generator.py lines 275-302: the
body of the loop over `io["responses"].items()`.  The chained
comparison `200 <= int(name) < 300 and "schema" in detail` evaluates
`int(name)` first (a `ValueError` aborts descriptor building), and
short-circuits before the membership test when out of range. -/
def resp_step (table : TreeTable) (fuel : Nat) (payload : Payload)
    (rname : String) (detail : PyTree) : Option Payload :=
  if rname == "default" then some payload
  else
    match pyIntStr rname with
    | none => none
    | some n =>
      if 200 ≤ n then
        if n < 300 then
          match pyContains detail "schema" with
          | none => none
          | some true =>
            match pyGetItem detail "schema" with
            | none => none
            | some schemaVal =>
              match schemaVal with
              | PyTree.obj schemaEntries =>
                match tdGet schemaEntries "$ref" with
                | some refv =>
                  if pyTruthy refv then
                    match refv with
                    | PyTree.str r =>
                      some { payload with response_schema := "schemas." ++ lastComp r }
                    | _ => none
                  else
                    match resolveT table fuel schemaEntries with
                    | some resolved =>
                      some { payload with response_schema :=
                        "json.loads(\"\"\"" ++ pyJsonDumps (PyTree.obj resolved) ++
                          "\"\"\")" }
                    | none => none
                | none =>
                  match resolveT table fuel schemaEntries with
                  | some resolved =>
                    some { payload with response_schema :=
                      "json.loads(\"\"\"" ++ pyJsonDumps (PyTree.obj resolved) ++
                        "\"\"\")" }
                  | none => none
              | _ => none
          | some false => some payload
        else some payload
      else some payload

/-- The whole response loop of generator.py lines 275-302. -/
def resp_responses (table : TreeTable) (fuel : Nat) :
    List (String × PyTree) → Payload → Option Payload
  | [], payload => some payload
  | (rname, detail) :: rest, payload =>
    match resp_step table fuel payload rname detail with
    | some p1 => resp_responses table fuel rest p1
    | none => none

/-- The security flag of generator.py lines 308-316: true when the
specification has a top-level `security` key, otherwise the membership
`"security" in specification["paths"].get(relative_url, {}).get(verb, {})`. -/
def security_flag (spec : TDict) (relative_url verb : String) : Option Bool :=
  if tdHasKey spec "security" then some true
  else
    match tdGet spec "paths" with
    | none => none
    | some pathsVal =>
      match pathsVal with
      | PyTree.obj paths =>
        match (tdGet paths relative_url).getD (PyTree.obj []) with
        | PyTree.obj inner =>
          pyContains ((tdGet inner verb).getD (PyTree.obj [])) "security"
        | _ => none
      | _ => none

/-- The full per-operation descriptor construction of generator.py
lines 215-318: operation lookup with the derived name as fallback
(lines 217-219), initial payload, parameter classification, response
selection and the security flag.  `opMap` is the
`PATH_VERB_OPERATION_MAP` built at lines 181-185. -/
def make_payload (table : TreeTable) (fuel : Nat) (spec : TDict)
    (opMap : String → String → Option String) (path relative_url verb : String)
    (params : List (String × TDict)) (responses : List (String × PyTree)) :
    Option (Payload × List UnsupportedReport) :=
  let operation := (opMap path verb).getD (path_to_operation path verb)
  match classify_params table fuel params (init_payload operation) [] with
  | none => none
  | some (p1, log) =>
    match resp_responses table fuel responses p1 with
    | none => none
    | some p2 =>
      match security_flag spec relative_url verb with
      | none => none
      | some sec => some ({ p2 with secure := sec }, log)

/-! ## Deep reference check on trees -/

mutual

/-- A reference-shaped key anywhere in a tree, including inside
list-valued children. -/
def PyTree.hasRefDeep : PyTree → Bool
  | .obj entries => PyTree.hasRefDeepObj entries
  | .arr elems => PyTree.hasRefDeepList elems
  | _ => false

def PyTree.hasRefDeepObj : List (String × PyTree) → Bool
  | [] => false
  | kv :: rest => kv.1 == "$ref" || PyTree.hasRefDeep kv.2 || PyTree.hasRefDeepObj rest

def PyTree.hasRefDeepList : List PyTree → Bool
  | [] => false
  | v :: rest => PyTree.hasRefDeep v || PyTree.hasRefDeepList rest

end

/-! ## Concrete instances used by the analysis -/

/-- A heap with a fragment at address 0 (the private deep copy: its
node is disjoint from the definitions region) that references the
stored definition `B` (address 1), whose body holds a nested dict
(address 2) containing a reference to the stored definition `C`
(address 3). -/
def mutHeap : Heap := fun a =>
  if a = 0 then [("$ref", JVal.str "#/definitions/B")]
  else if a = 1 then [("child", JVal.ptr 2)]
  else if a = 2 then [("$ref", JVal.str "#/definitions/C")]
  else if a = 3 then [("type", JVal.str "string")]
  else []

/-- The definitions table of `mutHeap`. -/
def mutTable : DefTable := fun sec defName =>
  if sec = "definitions" then
    if defName = "B" then some 1
    else if defName = "C" then some 3
    else none
  else none

/-- A heap with a fragment at address 0 whose only reference sits
inside a list-valued child (address 1), pointing at the reference-free
stored definition `C` (address 2); its reference graph is trivially
acyclic. -/
def arrHeap : Heap := fun a =>
  if a = 0 then [("allOf", JVal.arr [JVal.ptr 1])]
  else if a = 1 then [("$ref", JVal.str "#/definitions/C")]
  else if a = 2 then [("type", JVal.str "string")]
  else []

/-- The definitions table of `arrHeap`. -/
def arrTable : DefTable := fun sec defName =>
  if sec = "definitions" then if defName = "C" then some 2 else none else none

/-- A heap with a fragment at address 0 referencing the stored
definition `B` (address 1) whose body is itself a bare reference node
pointing at the reference-free stored definition `C` (address 2); the
reference graph B -> C is acyclic. -/
def aliasHeap : Heap := fun a =>
  if a = 0 then [("$ref", JVal.str "#/definitions/B")]
  else if a = 1 then [("$ref", JVal.str "#/definitions/C")]
  else if a = 2 then [("type", JVal.str "string")]
  else []

/-- The definitions table of `aliasHeap`. -/
def aliasTable : DefTable := fun sec defName =>
  if sec = "definitions" then
    if defName = "B" then some 1
    else if defName = "C" then some 2
    else none
  else none

/-- A heap whose fragment at address 0 is fully resolved: a nested
dict (address 1) and no reference key anywhere. -/
def resolvedHeap : Heap := fun a =>
  if a = 0 then [("properties", JVal.ptr 1)]
  else if a = 1 then [("type", JVal.str "string")]
  else []

/-! ## Equality instances and basic lemmas -/

mutual

theorem JVal.beqSelf : ∀ a : JVal, JVal.beq a a = true
  | .str a => by simp [JVal.beq]
  | .num a => by simp [JVal.beq]
  | .boolV a => by simp [JVal.beq]
  | .nullV => by simp [JVal.beq]
  | .arr a => by simp [JVal.beq, JVal.beqListSelf a]
  | .ptr a => by simp [JVal.beq]

theorem JVal.beqListSelf : ∀ l : List JVal, JVal.beqList l l = true
  | [] => by simp [JVal.beqList]
  | a :: as => by simp [JVal.beqList, JVal.beqSelf a, JVal.beqListSelf as]

end

mutual

theorem JVal.eqOfBeq : ∀ a b : JVal, JVal.beq a b = true → a = b
  | .str a, .str b => by simp [JVal.beq]
  | .str _, .num _ | .str _, .boolV _ | .str _, .nullV | .str _, .arr _ | .str _, .ptr _ => by simp [JVal.beq]
  | .num _, .str _ => by simp [JVal.beq]
  | .num a, .num b => by simp [JVal.beq]
  | .num _, .boolV _ | .num _, .nullV | .num _, .arr _ | .num _, .ptr _ => by simp [JVal.beq]
  | .boolV _, .str _ | .boolV _, .num _ => by simp [JVal.beq]
  | .boolV a, .boolV b => by simp [JVal.beq]
  | .boolV _, .nullV | .boolV _, .arr _ | .boolV _, .ptr _ => by simp [JVal.beq]
  | .nullV, .str _ | .nullV, .num _ | .nullV, .boolV _ => by simp [JVal.beq]
  | .nullV, .nullV => by simp
  | .nullV, .arr _ | .nullV, .ptr _ => by simp [JVal.beq]
  | .arr _, .str _ | .arr _, .num _ | .arr _, .boolV _ | .arr _, .nullV => by simp [JVal.beq]
  | .arr a, .arr b => by
      simp only [JVal.beq, JVal.arr.injEq]
      exact JVal.eqListOfBeqList a b
  | .arr _, .ptr _ => by simp [JVal.beq]
  | .ptr _, .str _ | .ptr _, .num _ | .ptr _, .boolV _ | .ptr _, .nullV | .ptr _, .arr _ => by simp [JVal.beq]
  | .ptr a, .ptr b => by simp [JVal.beq]

theorem JVal.eqListOfBeqList : ∀ a b : List JVal, JVal.beqList a b = true → a = b
  | [], [] => by simp
  | [], _ :: _ => by simp [JVal.beqList]
  | _ :: _, [] => by simp [JVal.beqList]
  | a :: as, b :: bs => by
      simp only [JVal.beqList, Bool.and_eq_true, List.cons.injEq]
      exact fun h => ⟨JVal.eqOfBeq a b h.1, JVal.eqListOfBeqList as bs h.2⟩

end

instance : DecidableEq JVal := fun a b =>
  if h : JVal.beq a b = true then isTrue (JVal.eqOfBeq a b h)
  else isFalse (fun he => h (he ▸ JVal.beqSelf a))

mutual

theorem PyTree.beq_refl : ∀ a : PyTree, PyTree.beq a a = true
  | .str a => by simp [PyTree.beq]
  | .num a => by simp [PyTree.beq]
  | .boolV a => by simp [PyTree.beq]
  | .nullV => by simp [PyTree.beq]
  | .arr a => by simp [PyTree.beq, PyTree.beqList_refl a]
  | .obj a => by simp [PyTree.beq, PyTree.beqObj_refl a]

theorem PyTree.beqList_refl : ∀ l : List PyTree, PyTree.beqList l l = true
  | [] => by simp [PyTree.beqList]
  | a :: as => by simp [PyTree.beqList, PyTree.beq_refl a, PyTree.beqList_refl as]

theorem PyTree.beqObj_refl : ∀ l : List (String × PyTree), PyTree.beqObj l l = true
  | [] => by simp [PyTree.beqObj]
  | a :: as => by simp [PyTree.beqObj, PyTree.beq_refl a.2, PyTree.beqObj_refl as]

end

mutual

theorem PyTree.eq_of_beq : ∀ a b : PyTree, PyTree.beq a b = true → a = b
  | .str a, .str b => by simp [PyTree.beq]
  | .str _, .num _ | .str _, .boolV _ | .str _, .nullV | .str _, .arr _ | .str _, .obj _ => by simp [PyTree.beq]
  | .num _, .str _ => by simp [PyTree.beq]
  | .num a, .num b => by simp [PyTree.beq]
  | .num _, .boolV _ | .num _, .nullV | .num _, .arr _ | .num _, .obj _ => by simp [PyTree.beq]
  | .boolV _, .str _ | .boolV _, .num _ => by simp [PyTree.beq]
  | .boolV a, .boolV b => by simp [PyTree.beq]
  | .boolV _, .nullV | .boolV _, .arr _ | .boolV _, .obj _ => by simp [PyTree.beq]
  | .nullV, .str _ | .nullV, .num _ | .nullV, .boolV _ => by simp [PyTree.beq]
  | .nullV, .nullV => by simp
  | .nullV, .arr _ | .nullV, .obj _ => by simp [PyTree.beq]
  | .arr _, .str _ | .arr _, .num _ | .arr _, .boolV _ | .arr _, .nullV => by simp [PyTree.beq]
  | .arr a, .arr b => by
      simp only [PyTree.beq, PyTree.arr.injEq]
      exact PyTree.eqList_of_beqList a b
  | .arr _, .obj _ => by simp [PyTree.beq]
  | .obj _, .str _ | .obj _, .num _ | .obj _, .boolV _ | .obj _, .nullV | .obj _, .arr _ => by simp [PyTree.beq]
  | .obj a, .obj b => by
      simp only [PyTree.beq, PyTree.obj.injEq]
      exact PyTree.eqObj_of_beqObj a b

theorem PyTree.eqList_of_beqList : ∀ a b : List PyTree, PyTree.beqList a b = true → a = b
  | [], [] => by simp
  | [], _ :: _ => by simp [PyTree.beqList]
  | _ :: _, [] => by simp [PyTree.beqList]
  | a :: as, b :: bs => by
      simp only [PyTree.beqList, Bool.and_eq_true, List.cons.injEq]
      exact fun h => ⟨PyTree.eq_of_beq a b h.1, PyTree.eqList_of_beqList as bs h.2⟩

theorem PyTree.eqObj_of_beqObj : ∀ a b : List (String × PyTree), PyTree.beqObj a b = true → a = b
  | [], [] => by simp
  | [], _ :: _ => by simp [PyTree.beqObj]
  | _ :: _, [] => by simp [PyTree.beqObj]
  | a :: as, b :: bs => by
      simp only [PyTree.beqObj, Bool.and_eq_true, List.cons.injEq, beq_iff_eq]
      rintro ⟨⟨h1, h2⟩, h3⟩
      have h4 := PyTree.eq_of_beq a.2 b.2 h2
      have h5 := PyTree.eqObj_of_beqObj as bs h3
      exact ⟨Prod.ext h1 h4, h5⟩

end

instance : DecidableEq PyTree := fun a b =>
  if h : PyTree.beq a b = true then isTrue (PyTree.eq_of_beq a b h)
  else isFalse (fun he => h (he ▸ PyTree.beq_refl a))

/-! ## Dictionary lemmas -/

theorem hdHasKey_pop_self (d : HDict) (k : String) : hdHasKey (hdPop d k) k = false := by
  induction d with
  | nil => rfl
  | cons e rest ih =>
    by_cases h : e.1 = k
    · simpa [hdPop, List.filter_cons, h] using ih
    · simpa [hdPop, List.filter_cons, h, hdHasKey] using ih

theorem hdHasKey_mapSet (d : HDict) (k' : String) (v : JVal) (k : String) :
    hdHasKey (d.map (fun e => if e.1 == k' then (k', v) else e)) k = hdHasKey d k := by
  induction d with
  | nil => rfl
  | cons e rest ih =>
    simp only [hdHasKey] at ih
    simp only [List.map_cons, hdHasKey, List.any_cons]
    rw [ih]
    by_cases h : e.1 = k'
    · simp [h]
    · simp [h]

theorem hdHasKey_set (d : HDict) (k' : String) (v : JVal) (k : String) :
    hdHasKey (hdSet d k' v) k = (hdHasKey d k || (k' == k)) := by
  unfold hdSet
  by_cases hmem : hdHasKey d k'
  · rw [if_pos hmem, hdHasKey_mapSet]
    by_cases hk : k' = k
    · subst hk; simp [hmem]
    · simp [hk]
  · rw [if_neg hmem]
    simp [hdHasKey, List.any_append]

theorem hdHasKey_update (d e : HDict) (k : String) :
    hdHasKey (hdUpdate d e) k = (hdHasKey d k || hdHasKey e k) := by
  induction e generalizing d with
  | nil => simp [hdUpdate, hdHasKey]
  | cons x rest ih =>
    show hdHasKey (hdUpdate (hdSet d x.1 x.2) rest) k = _
    rw [ih, hdHasKey_set]
    simp [hdHasKey, List.any_cons, Bool.or_assoc]

theorem hdGet_none_iff (d : HDict) (k : String) : hdGet d k = none ↔ hdHasKey d k = false := by
  simp [hdGet, hdHasKey, List.find?_eq_none, List.any_eq_false]

theorem hdHasKey_of_hdGet_some {d : HDict} {k : String} {v : JVal} (h : hdGet d k = some v) :
    hdHasKey d k = true := by
  cases hk : hdHasKey d k with
  | false => rw [(hdGet_none_iff d k).mpr hk] at h; cases h
  | true => rfl

theorem heapSet_same (h : Heap) (a : Nat) (d : HDict) : heapSet h a d a = d := by
  simp [heapSet]

theorem heapSet_other (h : Heap) (a : Nat) (d : HDict) (x : Nat) (hx : x ≠ a) :
    heapSet h a d x = h x := by
  simp [heapSet, hx]

/-! ## Reachability lemmas -/

theorem Reach.trans {h : Heap} {a b c : Nat} (h1 : Reach h a b) (h2 : Reach h b c) :
    Reach h a c := by
  induction h1 with
  | refl _ => exact h2
  | head k a' c' n' mem tail ih => exact Reach.head k _ _ _ mem (ih h2)

/-- Nodes whose dicts carry no reference key are untouched by any heap
transformation satisfying the frame property, so reference-free
reachable regions are stable. -/
theorem reach_stable {h h' : Heap}
    (frame : ∀ n, hdHasKey (h n) "$ref" = false → h' n = h n) :
    ∀ a n, Reach h' a n → (∀ m, Reach h a m → hdHasKey (h m) "$ref" = false) →
      Reach h a n ∧ h' n = h n := by
  intro a n hr
  induction hr with
  | refl b =>
    intro hclean
    exact ⟨Reach.refl b, frame b (hclean b (Reach.refl b))⟩
  | head k a' c' n' mem tail ih =>
    intro hclean
    have hca : hdHasKey (h a') "$ref" = false := hclean a' (Reach.refl a')
    have ha : h' a' = h a' := frame a' hca
    rw [ha] at mem
    have hac : Reach h a' c' := Reach.head k a' c' c' mem (Reach.refl c')
    have hcleanc : ∀ m, Reach h c' m → hdHasKey (h m) "$ref" = false :=
      fun m hm => hclean m (hac.trans hm)
    obtain ⟨h1, h2⟩ := ih hcleanc
    exact ⟨hac.trans h1, h2⟩

/-- Specification of the recursion over the values of one dict,
assuming the corresponding specification for the call made on each
dict-valued entry. -/
theorem resolveValuesF_spec (table : DefTable) (f : Nat → Heap → Option Heap)
    (hR : ∀ addr heap heap', TableClean table heap →
      f addr heap = some heap' →
      (∀ n, hdHasKey (heap n) "$ref" = false → heap' n = heap n) ∧
      TableClean table heap' ∧
      (∀ n, Reach heap' addr n → hdHasKey (heap' n) "$ref" = false)) :
    ∀ entries heap heap', TableClean table heap →
      resolveValuesF f entries heap = some heap' →
      (∀ n, hdHasKey (heap n) "$ref" = false → heap' n = heap n) ∧
      TableClean table heap' ∧
      (∀ k c, (k, JVal.ptr c) ∈ entries →
        ∀ n, Reach heap' c n → hdHasKey (heap' n) "$ref" = false) := by
  intro entries
  induction entries with
  | nil =>
    intro heap heap' hPre hres
    simp only [resolveValuesF] at hres
    cases hres
    refine ⟨fun n _ => rfl, hPre, ?_⟩
    intro k c hmem
    simp at hmem
  | cons e rest ih =>
    intro heap heap' hPre hres
    obtain ⟨k0, v0⟩ := e
    cases v0 with
    | ptr c0 =>
      simp only [resolveValuesF] at hres
      cases hrc : f c0 heap with
      | none => rw [hrc] at hres; cases hres
      | some h1 =>
        rw [hrc] at hres
        obtain ⟨frame1, hPre1, hclean1⟩ := hR c0 heap h1 hPre hrc
        obtain ⟨frame2, hPre2, hclean2⟩ := ih h1 heap' hPre1 hres
        refine ⟨?_, hPre2, ?_⟩
        · intro n hn
          have e1 : h1 n = heap n := frame1 n hn
          have e2 : heap' n = h1 n := frame2 n (by rw [e1]; exact hn)
          rw [e2, e1]
        · intro k c hmem n hn
          rcases List.mem_cons.mp hmem with hhead | htail
          · simp only [Prod.mk.injEq, JVal.ptr.injEq] at hhead
            obtain ⟨-, hc⟩ := hhead
            subst hc
            obtain ⟨hrn, heq⟩ :=
              reach_stable frame2 c n hn (fun m hm => hclean1 m hm)
            rw [heq]
            exact hclean1 n hrn
          · exact hclean2 k c htail n hn
    | str s =>
      simp only [resolveValuesF] at hres
      obtain ⟨frame2, hPre2, hclean2⟩ := ih heap heap' hPre hres
      refine ⟨frame2, hPre2, ?_⟩
      intro k c hmem n hn
      rcases List.mem_cons.mp hmem with hhead | htail
      · simp at hhead
      · exact hclean2 k c htail n hn
    | num m =>
      simp only [resolveValuesF] at hres
      obtain ⟨frame2, hPre2, hclean2⟩ := ih heap heap' hPre hres
      refine ⟨frame2, hPre2, ?_⟩
      intro k c hmem n hn
      rcases List.mem_cons.mp hmem with hhead | htail
      · simp at hhead
      · exact hclean2 k c htail n hn
    | boolV b =>
      simp only [resolveValuesF] at hres
      obtain ⟨frame2, hPre2, hclean2⟩ := ih heap heap' hPre hres
      refine ⟨frame2, hPre2, ?_⟩
      intro k c hmem n hn
      rcases List.mem_cons.mp hmem with hhead | htail
      · simp at hhead
      · exact hclean2 k c htail n hn
    | nullV =>
      simp only [resolveValuesF] at hres
      obtain ⟨frame2, hPre2, hclean2⟩ := ih heap heap' hPre hres
      refine ⟨frame2, hPre2, ?_⟩
      intro k c hmem n hn
      rcases List.mem_cons.mp hmem with hhead | htail
      · simp at hhead
      · exact hclean2 k c htail n hn
    | arr l =>
      simp only [resolveValuesF] at hres
      obtain ⟨frame2, hPre2, hclean2⟩ := ih heap heap' hPre hres
      refine ⟨frame2, hPre2, ?_⟩
      intro k c hmem n hn
      rcases List.mem_cons.mp hmem with hhead | htail
      · simp at hhead
      · exact hclean2 k c htail n hn

/-- Main specification of the resolver on the heap: assuming every
definition stored in the table is free of a top-level reference key,
a completed run (a) leaves every dict that carries no reference key
untouched, (b) preserves the table invariant, and (c) leaves no
reference key on any dict reachable from the resolved fragment through
dict-valued entries. -/
theorem resolveRefs_spec (table : DefTable) :
    ∀ fuel addr heap heap', TableClean table heap →
      resolveRefs table fuel addr heap = some heap' →
      (∀ n, hdHasKey (heap n) "$ref" = false → heap' n = heap n) ∧
      TableClean table heap' ∧
      (∀ n, Reach heap' addr n → hdHasKey (heap' n) "$ref" = false) := by
  intro fuel
  induction fuel with
  | zero =>
    intro addr heap heap' hPre hres
    simp [resolveRefs] at hres
  | succ f ih =>
    have hV := resolveValuesF_spec table (fun c h => resolveRefs table f c h) ih
    intro addr heap heap' hPre hres
    simp only [resolveRefs] at hres
    cases hget : hdGet (heap addr) "$ref" with
    | none =>
      rw [hget] at hres
      have hclean_addr : hdHasKey (heap addr) "$ref" = false := (hdGet_none_iff _ _).mp hget
      obtain ⟨frame, hPre', hchild⟩ := hV (heap addr) heap heap' hPre hres
      refine ⟨frame, hPre', ?_⟩
      intro n hn
      have haddr : heap' addr = heap addr := frame addr hclean_addr
      cases hn with
      | refl _ => rw [haddr]; exact hclean_addr
      | head k a c n mem tail =>
        rw [haddr] at mem
        exact hchild k c mem n tail
    | some v =>
      rw [hget] at hres
      cases v with
      | str r =>
        dsimp only at hres
        cases hsn : refSectionAndName r with
        | none => rw [hsn] at hres; dsimp only at hres; cases hres
        | some sn =>
          obtain ⟨sec, defName⟩ := sn
          rw [hsn] at hres
          dsimp only at hres
          cases htb : table sec defName with
          | none => rw [htb] at hres; dsimp only at hres; cases hres
          | some b =>
            rw [htb] at hres
            dsimp only at hres
            have hdclean :
                hdHasKey (hdUpdate (hdPop (heap addr) "$ref") (heap b)) "$ref" = false := by
              rw [hdHasKey_update, hdHasKey_pop_self]
              simpa using hPre sec defName b htb
            have haddr_ref : hdHasKey (heap addr) "$ref" = true := hdHasKey_of_hdGet_some hget
            have hPre1 :
                TableClean table
                  (heapSet heap addr (hdUpdate (hdPop (heap addr) "$ref") (heap b))) := by
              intro s n b' htb'
              have hb'clean := hPre s n b' htb'
              have hb'ne : b' ≠ addr := by
                intro he
                rw [he] at hb'clean
                rw [hb'clean] at haddr_ref
                cases haddr_ref
              rw [heapSet_other _ _ _ _ hb'ne]
              exact hb'clean
            obtain ⟨frame1, hPre', hchild⟩ := hV _ _ heap' hPre1 hres
            have haddr' :
                heap' addr = hdUpdate (hdPop (heap addr) "$ref") (heap b) := by
              have h0 := frame1 addr (by rw [heapSet_same]; exact hdclean)
              rw [heapSet_same] at h0
              exact h0
            refine ⟨?_, hPre', ?_⟩
            · intro n hn
              have hne : n ≠ addr := by
                intro he
                rw [he] at hn
                rw [hn] at haddr_ref
                cases haddr_ref
              have h1 := heapSet_other heap addr
                (hdUpdate (hdPop (heap addr) "$ref") (heap b)) n hne
              have h2 : heap' n = heapSet heap addr
                  (hdUpdate (hdPop (heap addr) "$ref") (heap b)) n :=
                frame1 n (by rw [h1]; exact hn)
              rw [h2, h1]
            · intro n hn
              cases hn with
              | refl _ => rw [haddr']; exact hdclean
              | head k a c n mem tail =>
                rw [haddr'] at mem
                exact hchild k c mem n tail
      | num m => dsimp only at hres; cases hres
      | boolV b => dsimp only at hres; cases hres
      | nullV => dsimp only at hres; cases hres
      | arr l => dsimp only at hres; cases hres
      | ptr a => dsimp only at hres; cases hres

/-- On entries whose dict-valued children are fully resolved, the
value loop completes and leaves the heap untouched. -/
theorem resolveValuesF_id (f : Nat → Heap → Option Heap) (fuel : Nat) (heap : Heap)
    (hR : ∀ a, noRefsUpTo fuel heap a = true → f a heap = some heap) :
    ∀ entries, (∀ k c, (k, JVal.ptr c) ∈ entries → noRefsUpTo fuel heap c = true) →
      resolveValuesF f entries heap = some heap := by
  intro entries
  induction entries with
  | nil => intro _; simp [resolveValuesF]
  | cons e rest ih =>
    intro hch
    obtain ⟨k0, v0⟩ := e
    cases v0 with
    | ptr c0 =>
      have h1 : f c0 heap = some heap := hR c0 (hch k0 c0 (by simp))
      simp only [resolveValuesF, h1]
      exact ih (fun k c hm => hch k c (List.mem_cons_of_mem _ hm))
    | str s =>
      simp only [resolveValuesF]
      exact ih (fun k c hm => hch k c (List.mem_cons_of_mem _ hm))
    | num m =>
      simp only [resolveValuesF]
      exact ih (fun k c hm => hch k c (List.mem_cons_of_mem _ hm))
    | boolV b =>
      simp only [resolveValuesF]
      exact ih (fun k c hm => hch k c (List.mem_cons_of_mem _ hm))
    | nullV =>
      simp only [resolveValuesF]
      exact ih (fun k c hm => hch k c (List.mem_cons_of_mem _ hm))
    | arr l =>
      simp only [resolveValuesF]
      exact ih (fun k c hm => hch k c (List.mem_cons_of_mem _ hm))

/-- On an already-resolved fragment the resolver completes and returns
the heap unchanged. -/
theorem resolveRefs_id (table : DefTable) :
    ∀ fuel heap addr, noRefsUpTo fuel heap addr = true →
      resolveRefs table fuel addr heap = some heap := by
  intro fuel
  induction fuel with
  | zero => intro heap addr h; simp [noRefsUpTo] at h
  | succ f ih =>
    intro heap addr h
    simp only [noRefsUpTo, Bool.and_eq_true] at h
    obtain ⟨hnk, hall⟩ := h
    have hget : hdGet (heap addr) "$ref" = none :=
      (hdGet_none_iff _ _).mpr (by simpa using hnk)
    simp only [resolveRefs, hget]
    apply resolveValuesF_id (fun c h => resolveRefs table f c h) f heap (fun a ha => ih heap a ha)
    intro k c hm
    rw [List.all_eq_true] at hall
    simpa using hall (k, JVal.ptr c) hm

theorem PyTree.beq_iff (a b : PyTree) : PyTree.beq a b = true ↔ a = b :=
  ⟨PyTree.eq_of_beq a b, fun h => h ▸ PyTree.beq_refl a⟩

/-! ## Claims -/

/-- C1: the operation-name derivation satisfies the spec's first
example (`get_root` for the root path) but not the second: at the
failing input path `"/foo/{id}"` with verb `"get"` the code yields
`"get__foo_id"` — line 129 keeps the empty segment produced by the
path's leading slash, so the verb is followed by two underscores,
contradicting the function's own docstring example
(`"get_some_path_id_foo_bar"`) — whereas the claim requires
`"get_foo_id"`. -/
theorem c1_operation_name_examples :
    path_to_operation "/" "get" = "get_root" ∧
    path_to_operation "/foo/{id}" "get" = "get__foo_id" ∧
    path_to_operation "/foo/{id}" "get" ≠ "get_foo_id" := by
  refine ⟨rfl, rfl, ?_⟩
  decide

/-- C5: the class-name derivation maps the root path to the sentinel
`"Root"`, maps `"/foo/{bar_id}/baz"` to `"FooBarIdBaz"`, and on every
path equals the spec's description: strip braces and treat `_` as a
separator (the shared character map), split on `/`, discard empty
segments, uppercase each segment's first character preserving the
rest, concatenate, with the empty result yielding `"Root"`. -/
theorem c5_class_name_derivation :
    path_to_class_name "/" = "Root" ∧
    path_to_class_name "/foo/{bar_id}/baz" = "FooBarIdBaz" ∧
    ∀ path : String,
      path_to_class_name path =
        (let segs := (splitOnCh '/' (sanitiseList path.toList)).filter (fun p => !p.isEmpty)
         let joined := String.mk (List.flatten (segs.map capFirstList))
         if joined.isEmpty then "Root" else joined) :=
  ⟨rfl, rfl, fun _ => rfl⟩

/-- Witness for C5: the derivation rule evaluated at a concrete path. -/
theorem c5_class_name_derivation_witness :
    path_to_class_name "/pet/{pet_id}" =
      (let segs :=
        (splitOnCh '/' (sanitiseList "/pet/{pet_id}".toList)).filter (fun p => !p.isEmpty)
       let joined := String.mk (List.flatten (segs.map capFirstList))
       if joined.isEmpty then "Root" else joined) :=
  c5_class_name_derivation.2.2 "/pet/{pet_id}"

/-- C2: resolving a private deep copy of a fragment that references
the stored definition `B` mutates the canonical definitions table:
the snapshot of `B` changes from
`obj [child ↦ obj [$ref ↦ .../C]]` to
`obj [child ↦ obj [type ↦ string]]`, because line 203's
`definition.update(referenced_definition)` shares `B`'s child dict
with the fragment and the recursion of lines 205-207 then pops that
shared child's reference and merges `C`'s body into it in place. -/
theorem c2_resolver_mutates_definitions_table :
    snapVal mutHeap 9 (JVal.ptr 1) =
      some (PyTree.obj [("child", PyTree.obj [("$ref", PyTree.str "#/definitions/C")])]) ∧
    (resolveRefs mutTable 9 0 mutHeap).bind (fun h => snapVal h 9 (JVal.ptr 1)) =
      some (PyTree.obj [("child", PyTree.obj [("type", PyTree.str "string")])]) ∧
    PyTree.obj [("child", PyTree.obj [("$ref", PyTree.str "#/definitions/C")])] ≠
      PyTree.obj [("child", PyTree.obj [("type", PyTree.str "string")])] := by
  refine ⟨rfl, rfl, ?_⟩
  decide

/-- C3 counterexample: in `arrHeap` the reference graph over the
definitions table is trivially acyclic (the only stored definition `C`
has no reference anywhere, and the fragment's only reference points to
`C`), the resolver completes, yet the output still contains a
`"$ref"`-shaped key: it sits inside a list-valued child, which the
recursion of line 206 (`isinstance(value, dict)`) never visits, so the
claim's totality statement fails at this input.  The last two
conjuncts show a second failing input: in `aliasHeap` (also acyclic,
B -> C) the body of `B` is itself a bare reference node, and after the
substitution at the fragment root the merged-in `"$ref"` key is never
re-examined, so it survives even on a dict-valued node. -/
theorem c3_reference_in_list_survives :
    hdHasKey (arrHeap 2) "$ref" = false ∧
    resolveRefs arrTable 9 0 arrHeap = some arrHeap ∧
    (resolveRefs arrTable 9 0 arrHeap).bind (fun h => snapVal h 9 (JVal.ptr 0)) =
      some (PyTree.obj
        [("allOf", PyTree.arr [PyTree.obj [("$ref", PyTree.str "#/definitions/C")]])]) ∧
    PyTree.hasRefDeep
      (PyTree.obj
        [("allOf", PyTree.arr [PyTree.obj [("$ref", PyTree.str "#/definitions/C")]])]) = true ∧
    (resolveRefs aliasTable 9 0 aliasHeap).map (fun h => h 0) =
      some [("$ref", JVal.str "#/definitions/C")] ∧
    hdHasKey [("$ref", JVal.str "#/definitions/C")] "$ref" = true := by
  refine ⟨rfl, rfl, rfl, ?_, rfl, rfl⟩
  decide

/-- C3 as amended: whenever the resolver completes normally and no
definition stored in the table carries a top-level `"$ref"` key, the
output contains no `"$ref"`-shaped key on any dict reachable from the
fragment through dict-valued children.  (References inside list-valued
children are not traversed and may remain, and a definition body that
is itself a bare reference node would re-introduce a `"$ref"` key, so
both are excluded; termination replaces acyclicity, which the source
does not check.) -/
theorem c3_resolver_clears_reachable_refs (table : DefTable) (fuel addr : Nat)
    (heap heap' : Heap) (htable : TableClean table heap)
    (hres : resolveRefs table fuel addr heap = some heap') :
    ∀ n, Reach heap' addr n → hdHasKey (heap' n) "$ref" = false :=
  (resolveRefs_spec table fuel addr heap heap' htable hres).2.2

/-- Witness for the amended C3: a completed run on `mutHeap` whose
output has no reference key on any reachable dict. -/
theorem c3_resolver_clears_reachable_refs_witness :
    ∃ h, resolveRefs mutTable 9 0 mutHeap = some h ∧
      ∀ n, Reach h 0 n → hdHasKey (h n) "$ref" = false := by
  refine ⟨_, rfl, ?_⟩
  apply c3_resolver_clears_reachable_refs mutTable 9 0 mutHeap _ ?_ rfl
  intro s n b h
  unfold mutTable at h
  split_ifs at h with h1 h2 h3
  · cases h; decide
  · cases h; decide

/-- C4: applying the resolver to a fragment that is already fully
resolved (no `"$ref"` key on any dict reachable through dict-valued
children, within the given fuel bound) completes and returns the heap
unchanged, so the resolved fragment is structurally equal to the
input. -/
theorem c4_resolution_idempotent (table : DefTable) (fuel : Nat) (heap : Heap) (addr : Nat)
    (h : noRefsUpTo fuel heap addr = true) :
    resolveRefs table fuel addr heap = some heap :=
  resolveRefs_id table fuel heap addr h

/-- Witness for C4: a fully resolved two-level fragment is returned
unchanged. -/
theorem c4_resolution_idempotent_witness :
    noRefsUpTo 3 resolvedHeap 0 = true ∧
    resolveRefs arrTable 3 0 resolvedHeap = some resolvedHeap :=
  ⟨by decide, c4_resolution_idempotent arrTable 3 resolvedHeap 0 (by decide)⟩

/-- A response entry is skipped (payload unchanged) when its key is
`"default"`, out of the 2xx range, or in range without a schema key. -/
theorem resp_step_skip (table : TreeTable) (fuel : Nat) (payload : Payload)
    (rname : String) (detail : PyTree)
    (h : rname = "default" ∨ ∃ n, pyIntStr rname = some n ∧
      (¬(200 ≤ n) ∨ ¬(n < 300) ∨ pyContains detail "schema" = some false)) :
    resp_step table fuel payload rname detail = some payload := by
  rcases h with h | ⟨n, hint, hcase⟩
  · simp [resp_step, h]
  · by_cases hd : rname = "default"
    · simp [resp_step, hd]
    · rcases hcase with hlt | hlt | hc
      · simp [resp_step, hd, hint, hlt]
      · simp [resp_step, hd, hint, hlt]
      · simp only [resp_step, hint, hc]
        rw [if_neg (by simpa using hd)]
        split_ifs <;> rfl

/-- The whole response loop leaves the payload unchanged when every
entry is skipped. -/
theorem resp_responses_skip (table : TreeTable) (fuel : Nat) :
    ∀ (responses : List (String × PyTree)) (payload : Payload),
      (∀ p ∈ responses, p.1 = "default" ∨ ∃ n, pyIntStr p.1 = some n ∧
        (¬(200 ≤ n) ∨ ¬(n < 300) ∨ pyContains p.2 "schema" = some false)) →
      resp_responses table fuel responses payload = some payload := by
  intro responses
  induction responses with
  | nil => intro payload _; rfl
  | cons p rest ih =>
    intro payload hall
    obtain ⟨rname, detail⟩ := p
    have hstep := resp_step_skip table fuel payload rname detail (hall (rname, detail) (by simp))
    simp only [resp_responses, hstep]
    exact ih payload (fun q hq => hall q (List.mem_cons_of_mem _ hq))

/-- The whole response loop fails when some entry has a key other
than `"default"` that `int()` cannot convert. -/
theorem resp_responses_none (table : TreeTable) (fuel : Nat) :
    ∀ (responses : List (String × PyTree)) (payload : Payload),
      (∃ p ∈ responses, p.1 ≠ "default" ∧ pyIntStr p.1 = none) →
      resp_responses table fuel responses payload = none := by
  intro responses
  induction responses with
  | nil => intro payload h; simp at h
  | cons p rest ih =>
    intro payload hex
    obtain ⟨rname, detail⟩ := p
    rcases hex with ⟨q, hq, hne, hint⟩
    rcases List.mem_cons.mp hq with rfl | htail
    · have hstep : resp_step table fuel payload rname detail = none := by
        simp only [resp_step, hint]
        rw [if_neg (by simpa using hne)]
      simp [resp_responses, hstep]
    · simp only [resp_responses]
      cases hstep : resp_step table fuel payload rname detail with
      | none => rfl
      | some p1 => exact ih p1 ⟨q, htail, hne, hint⟩

/-- C6: every parameter whose location is `path` or `query` is
appended to the descriptor's required-argument list when its required
flag is truthy and to the optional-argument list otherwise (so
declaration order is preserved within each list), and on the spec's
example parameters `id` (path, required) and `q` (query, optional)
the required list contains exactly the `id` detail and the optional
list exactly the `q` detail. -/
theorem c6_path_query_classification :
    (∀ (table : TreeTable) (fuel : Nat) (payload : Payload)
       (log : List UnsupportedReport) (pname : String) (detail : TDict) (req : PyTree),
      (tdGet detail "in" = some (PyTree.str "path") ∨
        tdGet detail "in" = some (PyTree.str "query")) →
      tdGet detail "required" = some req →
      classify_param table fuel payload log pname detail =
        some (if pyTruthy req then
                { payload with required_args := payload.required_args ++ [detail] }
              else
                { payload with optional_args := payload.optional_args ++ [detail] }, log)) ∧
    (∀ (table : TreeTable) (fuel : Nat),
      classify_params table fuel
        [("id", [("name", PyTree.str "id"), ("in", PyTree.str "path"),
                 ("required", PyTree.boolV true)]),
         ("q", [("name", PyTree.str "q"), ("in", PyTree.str "query"),
                ("required", PyTree.boolV false)])]
        (init_payload "get_foo") [] =
      some ({ init_payload "get_foo" with
        required_args := [[("name", PyTree.str "id"), ("in", PyTree.str "path"),
                           ("required", PyTree.boolV true)]],
        optional_args := [[("name", PyTree.str "q"), ("in", PyTree.str "query"),
                           ("required", PyTree.boolV false)]] }, [])) := by
  constructor
  · intro table fuel payload log pname detail req hin hreq
    rcases hin with h | h
    · simp only [classify_param, h, hreq]
      cases hpt : pyTruthy req <;> simp [PyTree.beq, hpt]
    · simp only [classify_param, h, hreq]
      cases hpt : pyTruthy req <;> simp [PyTree.beq, hpt]
  · intro table fuel
    rfl

/-- Witness for C6: the classification rule applied to a concrete
required path parameter. -/
theorem c6_path_query_classification_witness :
    classify_param (fun _ _ => none) 1 (init_payload "op") [] "id"
      [("in", PyTree.str "path"), ("required", PyTree.boolV true)] =
      some (if pyTruthy (PyTree.boolV true) then
              { init_payload "op" with required_args :=
                (init_payload "op").required_args ++
                  [[("in", PyTree.str "path"), ("required", PyTree.boolV true)]] }
            else
              { init_payload "op" with optional_args :=
                (init_payload "op").optional_args ++
                  [[("in", PyTree.str "path"), ("required", PyTree.boolV true)]] }, []) :=
  c6_path_query_classification.1 (fun _ _ => none) 1 (init_payload "op") [] "id"
    [("in", PyTree.str "path"), ("required", PyTree.boolV true)]
    (PyTree.boolV true) (Or.inl rfl) rfl

/-- C7: the response selector takes the schema of a response whose key
converts to a numeric code in [200, 300) and which declares a schema,
recording a reference as the symbolic name `schemas.<Name>`; on the
spec's example the `default` and `404` entries never affect the
outcome; and when no qualifying response exists the payload — in
particular its `"schemas.__UNSPECIFIED__"` response-schema sentinel —
is left unchanged. -/
theorem c7_response_selection :
    (∀ (table : TreeTable) (fuel : Nat),
      resp_responses table fuel
        [("200", PyTree.obj [("schema", PyTree.obj [("$ref", PyTree.str "#/definitions/Widget")])]),
         ("404", PyTree.obj [("schema", PyTree.obj [("$ref", PyTree.str "#/definitions/Error")])]),
         ("default", PyTree.obj [("description", PyTree.str "other")])]
        (init_payload "op") =
      some { init_payload "op" with response_schema := "schemas.Widget" }) ∧
    (∀ (table : TreeTable) (fuel : Nat) (responses : List (String × PyTree)) (payload : Payload),
      (∀ p ∈ responses, p.1 = "default" ∨ ∃ n, pyIntStr p.1 = some n ∧
        (¬(200 ≤ n) ∨ ¬(n < 300) ∨ pyContains p.2 "schema" = some false)) →
      resp_responses table fuel responses payload = some payload) ∧
    (∀ (table : TreeTable) (fuel : Nat) (payload : Payload) (rname : String)
       (detail : PyTree) (n : Int) (schemaEntries : TDict) (r : String),
      rname ≠ "default" → pyIntStr rname = some n → 200 ≤ n → n < 300 →
      pyContains detail "schema" = some true →
      pyGetItem detail "schema" = some (PyTree.obj schemaEntries) →
      tdGet schemaEntries "$ref" = some (PyTree.str r) →
      pyTruthy (PyTree.str r) = true →
      resp_step table fuel payload rname detail =
        some { payload with response_schema := "schemas." ++ lastComp r }) := by
  refine ⟨fun table fuel => rfl, resp_responses_skip, ?_⟩
  intro table fuel payload rname detail n schemaEntries r hd hint h200 h300 hcont hget href htr
  simp only [resp_step, hint, hcont, hget, href, htr]
  rw [if_neg (by simpa using hd), if_pos h200, if_pos h300]
  simp

/-- Witness for C7: the skip rule and the selection rule evaluated at
concrete inputs. -/
theorem c7_response_selection_witness :
    resp_responses (fun _ _ => none) 1
      [("404", PyTree.obj [("schema", PyTree.obj [])]), ("default", PyTree.nullV)]
      (init_payload "op") = some (init_payload "op") ∧
    resp_step (fun _ _ => none) 1 (init_payload "op") "201"
      (PyTree.obj [("schema", PyTree.obj [("$ref", PyTree.str "#/definitions/Pet")])]) =
      some { init_payload "op" with response_schema := "schemas." ++ lastComp "#/definitions/Pet" } :=
  ⟨c7_response_selection.2.1 (fun _ _ => none) 1 _ (init_payload "op") (by
      intro p hp
      rcases List.mem_cons.mp hp with rfl | hp2
      · exact Or.inr ⟨404, rfl, Or.inr (Or.inl (by decide))⟩
      · rcases List.mem_cons.mp hp2 with rfl | hp3
        · exact Or.inl rfl
        · simp at hp3),
   c7_response_selection.2.2 (fun _ _ => none) 1 (init_payload "op") "201" _ 201 _
     "#/definitions/Pet" (by decide) rfl (by decide) (by decide) rfl rfl rfl rfl⟩

/-- C8: for every operation, a top-level `security` key on the
specification forces the descriptor's security flag to true regardless
of per-operation declarations; otherwise the flag is exactly whether
the specific path and verb entry declares its own `security` key. -/
theorem c8_security_flag :
    (∀ (spec : TDict) (relative_url verb : String),
      tdHasKey spec "security" = true →
      security_flag spec relative_url verb = some true) ∧
    (∀ (spec : TDict) (relative_url verb : String)
       (paths inner vd : List (String × PyTree)),
      tdHasKey spec "security" = false →
      tdGet spec "paths" = some (PyTree.obj paths) →
      (tdGet paths relative_url).getD (PyTree.obj []) = PyTree.obj inner →
      (tdGet inner verb).getD (PyTree.obj []) = PyTree.obj vd →
      security_flag spec relative_url verb = some (tdHasKey vd "security")) := by
  constructor
  · intro spec relative_url verb h
    simp [security_flag, h]
  · intro spec relative_url verb paths inner vd hs hp hrel hverb
    simp [security_flag, hs, hp, hrel, hverb, pyContains]

/-- Witness for C8: both directions at concrete specifications. -/
theorem c8_security_flag_witness :
    security_flag [("security", PyTree.arr [PyTree.obj []]),
      ("paths", PyTree.obj [("/pet", PyTree.obj [("get", PyTree.obj [])])])] "/pet" "get" =
      some true ∧
    security_flag [("paths", PyTree.obj [("/pet", PyTree.obj
      [("get", PyTree.obj [("security", PyTree.arr [])])])])] "/pet" "get" =
      some (tdHasKey [("security", PyTree.arr [])] "security") :=
  ⟨c8_security_flag.1 [("security", PyTree.arr [PyTree.obj []]),
      ("paths", PyTree.obj [("/pet", PyTree.obj [("get", PyTree.obj [])])])] "/pet" "get" rfl,
   c8_security_flag.2 [("paths", PyTree.obj [("/pet", PyTree.obj
      [("get", PyTree.obj [("security", PyTree.arr [])])])])] "/pet" "get"
      [("/pet", PyTree.obj [("get", PyTree.obj [("security", PyTree.arr [])])])]
      [("get", PyTree.obj [("security", PyTree.arr [])])]
      [("security", PyTree.arr [])] rfl rfl rfl rfl⟩

/-- C9: a parameter whose declared location is none of `path`,
`query`, `body` or `formData` is reported — as the triple of location,
operation identifier and parameter name interpolated into the message
of lines 269-272 — and skipped: the payload (its required-argument,
optional-argument, form-data and body fields in particular) is
returned unchanged and classification continues, producing a result
rather than aborting. -/
theorem c9_unsupported_location_skipped :
    ∀ (table : TreeTable) (fuel : Nat) (payload : Payload)
      (log : List UnsupportedReport) (pname : String) (detail : TDict) (location : PyTree),
      tdGet detail "in" = some location →
      location ≠ PyTree.str "path" →
      location ≠ PyTree.str "query" →
      location ≠ PyTree.str "body" →
      location ≠ PyTree.str "formData" →
      classify_param table fuel payload log pname detail =
        some (payload, log ++ [(location, payload.operation, pname)]) := by
  intro table fuel payload log pname detail location hin h1 h2 h3 h4
  have b1 : PyTree.beq location (PyTree.str "path") = false := by
    cases hb : PyTree.beq location (PyTree.str "path")
    · rfl
    · exact absurd (PyTree.eq_of_beq _ _ hb) h1
  have b2 : PyTree.beq location (PyTree.str "query") = false := by
    cases hb : PyTree.beq location (PyTree.str "query")
    · rfl
    · exact absurd (PyTree.eq_of_beq _ _ hb) h2
  have b3 : PyTree.beq location (PyTree.str "body") = false := by
    cases hb : PyTree.beq location (PyTree.str "body")
    · rfl
    · exact absurd (PyTree.eq_of_beq _ _ hb) h3
  have b4 : PyTree.beq location (PyTree.str "formData") = false := by
    cases hb : PyTree.beq location (PyTree.str "formData")
    · rfl
    · exact absurd (PyTree.eq_of_beq _ _ hb) h4
  simp [classify_param, hin, b1, b2, b3, b4]

/-- Witness for C9: a `header` parameter is reported and skipped. -/
theorem c9_unsupported_location_skipped_witness :
    classify_param (fun _ _ => none) 1 (init_payload "op") [] "token"
      [("in", PyTree.str "header")] =
      some (init_payload "op", [] ++ [(PyTree.str "header", (init_payload "op").operation, "token")]) :=
  c9_unsupported_location_skipped (fun _ _ => none) 1 (init_payload "op") [] "token"
    [("in", PyTree.str "header")] (PyTree.str "header") rfl
    (by decide) (by decide) (by decide) (by decide)

/-- C10: a responses key other than `"default"` that `int()` cannot
convert makes the selector raise (the step yields no result exactly at
the conversion of line 278, before the range test completes), so the
whole response loop and with it the operation's descriptor are never
produced — the key is not skipped. -/
theorem c10_nonnumeric_response_key_fatal :
    (∀ (table : TreeTable) (fuel : Nat) (payload : Payload) (rname : String) (detail : PyTree),
      rname ≠ "default" → pyIntStr rname = none →
      resp_step table fuel payload rname detail = none) ∧
    (∀ (table : TreeTable) (fuel : Nat) (responses : List (String × PyTree)) (payload : Payload),
      (∃ p ∈ responses, p.1 ≠ "default" ∧ pyIntStr p.1 = none) →
      resp_responses table fuel responses payload = none) ∧
    (∀ (table : TreeTable) (fuel : Nat) (spec : TDict)
       (opMap : String → String → Option String) (path relative_url verb : String)
       (params : List (String × TDict)) (responses : List (String × PyTree)),
      (∃ p ∈ responses, p.1 ≠ "default" ∧ pyIntStr p.1 = none) →
      make_payload table fuel spec opMap path relative_url verb params responses = none) := by
  have hstep : ∀ (table : TreeTable) (fuel : Nat) (payload : Payload)
      (rname : String) (detail : PyTree),
      rname ≠ "default" → pyIntStr rname = none →
      resp_step table fuel payload rname detail = none := by
    intro table fuel payload rname detail hd hint
    simp only [resp_step, hint]
    rw [if_neg (by simpa using hd)]
  refine ⟨hstep, resp_responses_none, ?_⟩
  intro table fuel spec opMap path relative_url verb params responses hex
  simp only [make_payload]
  cases hcp : classify_params table fuel params
      (init_payload ((opMap path verb).getD (path_to_operation path verb))) [] with
  | none => rfl
  | some pr =>
    obtain ⟨p1, log⟩ := pr
    dsimp only
    rw [resp_responses_none table fuel responses p1 hex]

/-- Witness for C10: the key `"2XX"` makes the step, the loop and the
descriptor construction all fail. -/
theorem c10_nonnumeric_response_key_fatal_witness :
    resp_step (fun _ _ => none) 1 (init_payload "op") "2XX" (PyTree.obj []) = none ∧
    resp_responses (fun _ _ => none) 1 [("2XX", PyTree.obj [])] (init_payload "op") = none ∧
    make_payload (fun _ _ => none) 1 [] (fun _ _ => none) "/pet" "/pet" "get" []
      [("2XX", PyTree.obj [])] = none :=
  ⟨c10_nonnumeric_response_key_fatal.1 (fun _ _ => none) 1 (init_payload "op") "2XX"
      (PyTree.obj []) (by decide) rfl,
   c10_nonnumeric_response_key_fatal.2.1 (fun _ _ => none) 1 [("2XX", PyTree.obj [])]
      (init_payload "op") ⟨("2XX", PyTree.obj []), by simp, by decide, rfl⟩,
   c10_nonnumeric_response_key_fatal.2.2 (fun _ _ => none) 1 [] (fun _ _ => none)
      "/pet" "/pet" "get" [] [("2XX", PyTree.obj [])]
      ⟨("2XX", PyTree.obj []), by simp, by decide, rfl⟩⟩
